import Mathlib

/-!
Verification of the f1-clustering analytics pipeline.

The Python source (src/processing.py, src/clustering.py, src/main.py,
src/config.py) is shallowly embedded here.  Numeric cells are modelled by
the exact rationals; the only irrational operation of the pipeline, the
floating square root (used by pandas `std`, by `StandardScaler` and inside
sklearn cosine/euclidean kernels), is threaded through every definition as
an explicit oracle parameter `sq : Rat -> Rat`.  All structural theorems
hold for every oracle; the statements that genuinely depend on sqrt being
a square root (the cosine diagonal) carry the correctness of the oracle at
the relevant arguments as an explicit hypothesis, which concrete witnesses
discharge with `ratSqrt`, an oracle that is exact on perfect squares.

Floating NaN and the infinities are modelled explicitly where the code can
produce them (`FVal` for the GearEfficiency column, `Option` for pandas
aggregates of empty or singleton series, where pandas yields NaN).
-/

namespace F1

/-! ### Basic numeric helpers (pandas aggregate semantics over exact rationals) -/

/-- Arithmetic mean of a list of rationals.  Only meaningful for nonempty
lists; callers that can receive an empty series go through `meanO`. -/
def meanQ (l : List ℚ) : ℚ := l.sum / (l.length : ℚ)

/-- pandas `Series.mean`: NaN (modelled as `none`) on an empty series. -/
def meanO (l : List ℚ) : Option ℚ := if l.length = 0 then none else some (meanQ l)

/-- pandas `Series.max`: NaN (modelled as `none`) on an empty series. -/
def maxO : List ℚ → Option ℚ
| [] => none
| x :: xs => some (match maxO xs with
    | none => x
    | some m => max x m)

/-- Sample variance with ddof = 1, the pandas `std` default (before the
square root is taken).  The division by `length - 1` is only meaningful
for two or more samples; every call site guards on that, mirroring the
NaN pandas produces for shorter series. -/
def svar (l : List ℚ) : ℚ :=
  ((l.map (fun x => (x - meanQ l) ^ 2)).sum) / ((l.length : ℚ) - 1)

/-- Population variance (ddof = 0), the sklearn `StandardScaler` variant. -/
def pvar (l : List ℚ) : ℚ :=
  ((l.map (fun x => (x - meanQ l) ^ 2)).sum) / (l.length : ℚ)

/-- pandas `Series.std` (ddof = 1): NaN for fewer than two samples,
otherwise the square root (through the oracle) of the sample variance. -/
def stdO (sq : ℚ → ℚ) (l : List ℚ) : Option ℚ :=
  if 2 ≤ l.length then some (sq (svar l)) else none

/-- Insertion step for `sortQ`. -/
def insQ (x : ℚ) : List ℚ → List ℚ
| [] => [x]
| y :: ys => if x ≤ y then x :: y :: ys else y :: insQ x ys

/-- Ascending sort of a rational list (used by the quantile). -/
def sortQ (l : List ℚ) : List ℚ := l.foldr insQ []

/-- pandas `Series.quantile(q)` with the default linear interpolation:
with the values sorted ascending and `h = q * (m - 1)`, the result
interpolates between the entries at positions `floor h` and `floor h + 1`. -/
def quantileQ (l : List ℚ) (q : ℚ) : ℚ :=
  let s := sortQ l
  let m := s.length
  if m = 0 then 0 else
    let h : ℚ := q * ((m : ℚ) - 1)
    let lo : ℕ := (Int.floor h).toNat
    let frac : ℚ := h - (lo : ℚ)
    let a := s.getD lo 0
    let b := s.getD (min (lo + 1) (m - 1)) 0
    a + frac * (b - a)

/-- Floor square root of a natural number, computed by counting the
`k ≤ n` with `k * k ≤ n`.  Exact whenever `n` is a perfect square. -/
def intSqrt (n : ℕ) : ℕ := (((List.range (n + 1)).filter (fun k => k * k ≤ n)).length) - 1

/-- A concrete square-root oracle: exact on rationals whose reduced
numerator and denominator are perfect squares (witnesses only apply it
there), and in particular `ratSqrt 0 = 0`. -/
def ratSqrt (q : ℚ) : ℚ := ((intSqrt q.num.toNat : ℚ)) / ((intSqrt q.den : ℚ))

/-! ### Raw telemetry tables (the parsed CSV handed to `process_driver_telemetry`) -/

/-- One parsed CSV record.  Field values are plain numbers: per the data
loader contract the files hold numeric columns; `brake` carries the
boolean-like `Brake` column and `nbrake` a pre-existing numeric `nBrake`
column.  Which of these columns is actually present is recorded in
`RawTable`. -/
structure RawRow where
  rpm : ℚ
  speed : ℚ
  gear : ℚ
  throttle : ℚ
  brake : Bool
  nbrake : ℚ
deriving DecidableEq

/-- A parsed CSV: presence flags for the columns the code inspects, plus
the records.  The dropped metadata columns (Date, Time, SessionTime,
Source) never interact with the computation and are not modelled. -/
structure RawTable where
  hasRPM : Bool
  hasSpeed : Bool
  hasGear : Bool
  hasThrottle : Bool
  hasBrake : Bool
  hasNBrakeCol : Bool
  rows : List RawRow
deriving DecidableEq

def rpmCol (t : RawTable) : List ℚ := t.rows.map (fun r => r.rpm)
def speedCol (t : RawTable) : List ℚ := t.rows.map (fun r => r.speed)
def gearCol (t : RawTable) : List ℚ := t.rows.map (fun r => r.gear)
def throttleCol (t : RawTable) : List ℚ := t.rows.map (fun r => r.throttle)

/-- processing.py lines 74-82: if a `Brake` column exists it is cast to
int (True = 1, False = 0) as `nBrake`; otherwise, if no `nBrake` column
exists either, a zero dummy column is created; otherwise the existing
`nBrake` column is used. -/
def nBrakeVals (t : RawTable) : List ℚ :=
  if t.hasBrake then t.rows.map (fun r => if r.brake then (1 : ℚ) else 0)
  else if t.hasNBrakeCol then t.rows.map (fun r => r.nbrake)
  else t.rows.map (fun _ => (0 : ℚ))

/-! ### One float cell of the GearEfficiency column

`RPM / (nGear + 1)` is the only derived column that can produce a
non-finite float from numeric input: numpy gives `inf`, `-inf` or `NaN`
when the denominator is zero, depending on the sign of the numerator. -/

inductive FVal where
  | fin (q : ℚ)
  | pinf
  | ninf
  | nan
deriving DecidableEq

def FVal.isFin : FVal → Bool
| .fin _ => true
| _ => false

/-- numpy float division for `RPM / (nGear + 1)`. -/
def gearEffCell (r g : ℚ) : FVal :=
  if g + 1 = 0 then (if 0 < r then .pinf else if r < 0 then .ninf else .nan)
  else .fin (r / (g + 1))

/-! ### pandas column operators used by the feature engineer -/

/-- Tail of `Series.diff`: each element minus its predecessor. -/
def diffAux (prev : ℚ) : List ℚ → List (Option ℚ)
| [] => []
| y :: ys => some (y - prev) :: diffAux y ys

/-- pandas `Series.diff()`: NaN (`none`) at the first position, then the
difference with the previous element. -/
def diffNa : List ℚ → List (Option ℚ)
| [] => []
| x :: xs => none :: diffAux x xs

/-- pandas `.abs()` on a column that may hold NaN. -/
def absNa (l : List (Option ℚ)) : List (Option ℚ) := l.map (Option.map (fun x => |x|))

/-- pandas `.fillna(0)`. -/
def fillna0 (l : List (Option ℚ)) : List ℚ := l.map (fun v => v.getD 0)

/-- processing.py line 106: `Throttle.diff().abs().fillna(0)`. -/
def throttleRateCol (t : RawTable) : List ℚ := fillna0 (absNa (diffNa (throttleCol t)))

/-- processing.py line 110: `Speed.diff().fillna(0)`. -/
def accelerationCol (t : RawTable) : List ℚ := fillna0 (diffNa (speedCol t))

/-- processing.py line 107: `nBrake * Speed`, elementwise. -/
def brakeIntensityCol (t : RawTable) : List ℚ :=
  List.zipWith (fun a b => a * b) (nBrakeVals t) (speedCol t)

/-- processing.py line 108: `RPM / (nGear + 1)`, elementwise float division. -/
def gearEfficiencyCol (t : RawTable) : List FVal :=
  List.zipWith gearEffCell (rpmCol t) (gearCol t)

/-- The trailing window `rolling(10)` sees at position `i`: elements
`max 0 (i - 9)` through `i` (natural subtraction caps at 0). -/
def rollWindow (l : List ℚ) (i : ℕ) : List ℚ := (l.take (i + 1)).drop (i - 9)

/-- processing.py line 109: `Speed.rolling(10, min_periods=1).std().fillna(0)`.
With `min_periods=1` every position gets a window; a singleton window has
an undefined ddof-1 standard deviation (NaN), which `fillna(0)` turns
into 0; longer windows give the square root of the sample variance. -/
def rollingStdCol (sq : ℚ → ℚ) (l : List ℚ) : List ℚ :=
  (List.range l.length).map (fun i =>
    let w := rollWindow l i
    if 2 ≤ w.length then sq (svar w) else 0)

/-! ### The derived feature table -/

/-- A derived per-sample record before the invalid-value filter: every
field is a finite number except GearEfficiency, whose float cell can be
non-finite (`FVal`). -/
structure PreRow where
  rpm : ℚ
  speed : ℚ
  gear : ℚ
  throttle : ℚ
  nbrake : ℚ
  throttleRate : ℚ
  brakeIntensity : ℚ
  gearEfficiency : FVal
  speedVariability : ℚ
  acceleration : ℚ
deriving DecidableEq

/-- processing.py lines 97-110: the ten derived columns, assembled into
per-sample records. -/
def raw_feature_table (sq : ℚ → ℚ) (t : RawTable) : List PreRow :=
  (List.range t.rows.length).map (fun i =>
    { rpm := (rpmCol t).getD i 0
      speed := (speedCol t).getD i 0
      gear := (gearCol t).getD i 0
      throttle := (throttleCol t).getD i 0
      nbrake := (nBrakeVals t).getD i 0
      throttleRate := (throttleRateCol t).getD i 0
      brakeIntensity := (brakeIntensityCol t).getD i 0
      gearEfficiency := (gearEfficiencyCol t).getD i FVal.nan
      speedVariability := (rollingStdCol sq (speedCol t)).getD i 0
      acceleration := (accelerationCol t).getD i 0 })

/-- A Feature Row that survived the invalid-value filter, with the
metadata columns attached (processing.py lines 112-117).  Every numeric
field is a finite defined value. -/
structure FeatRow where
  rpm : ℚ
  speed : ℚ
  gear : ℚ
  throttle : ℚ
  nbrake : ℚ
  throttleRate : ℚ
  brakeIntensity : ℚ
  gearEfficiency : ℚ
  speedVariability : ℚ
  acceleration : ℚ
  driver : String
  team : String
deriving DecidableEq

/-- config.py TEAMS, in insertion order. -/
def TEAMS : List (String × List String) :=
  [("Williams", ["ALB", "SAI"]),
   ("Mercedes", ["ANT", "RUS"]),
   ("Ferrari", ["HAM", "LEC"]),
   ("RedBull", ["VER", "TSU"]),
   ("McLaren", ["PIA", "NOR"])]

/-- processing.py `get_driver_team`: first team whose roster holds the
code, defaulting to Unknown. -/
def get_driver_team (driver_code : String) : String :=
  ((TEAMS.find? (fun p => p.2.contains driver_code)).map (fun p => p.1)).getD "Unknown"

/-- processing.py line 113: `replace([inf, -inf], nan).dropna()` keeps a
record exactly when every cell is finite, i.e. when its GearEfficiency
cell is; the surviving record is carried over verbatim (lines 116-117
then attach Driver and Team). -/
def keepValidRow (d team : String) (p : PreRow) : Option FeatRow :=
  match p.gearEfficiency with
  | .fin g => some
      { rpm := p.rpm, speed := p.speed, gear := p.gear, throttle := p.throttle
        nbrake := p.nbrake, throttleRate := p.throttleRate
        brakeIntensity := p.brakeIntensity, gearEfficiency := g
        speedVariability := p.speedVariability, acceleration := p.acceleration
        driver := d, team := team }
  | _ => none

/-- processing.py lines 90-95: the four raw columns the feature engineer
requires. -/
def requiredPresent (t : RawTable) : Bool :=
  t.hasRPM && t.hasSpeed && t.hasGear && t.hasThrottle

/-- processing.py `process_driver_telemetry`: fails (None) when a
required raw column is missing, otherwise derives the feature columns,
drops every record holding a non-finite cell, and attaches the driver
and team metadata. -/
def process_driver_telemetry (sq : ℚ → ℚ) (t : RawTable) (driver_code : String) :
    Option (List FeatRow) :=
  if requiredPresent t then
    some ((raw_feature_table sq t).filterMap
      (keepValidRow driver_code (get_driver_team driver_code)))
  else none

/-- processing.py `load_track_data`, restricted to its pure core: the
file-system discovery is an external collaborator, so the function is
modelled on the already-parsed list of (driver code, table) pairs.  A
driver whose processing fails or yields no rows is skipped; if nothing
survives the result is None, otherwise the concatenation of the
per-driver feature tables. -/
def load_one (sq : ℚ → ℚ) (f : String × RawTable) : Option (List FeatRow) :=
  match process_driver_telemetry sq f.2 f.1 with
  | some rows => if 0 < rows.length then some rows else none
  | none => none

def load_track_data (sq : ℚ → ℚ) (files : List (String × RawTable)) :
    Option (List FeatRow) :=
  let all_data := files.filterMap (load_one sq)
  if all_data.isEmpty then none else some all_data.flatten

/-! ### Sample balancing and clustering (clustering.py `cluster_track_data`)

DBSCAN and the feature standardization that feeds it live in sklearn and
influence nothing but the integer labels, so the scaler-plus-DBSCAN
composite is a parameter `lbl` of the model; every theorem below holds
for an arbitrary label function (sklearn guarantees one label per row,
which appears as the `lbl_len` hypothesis where it matters). -/

/-- pandas `Series.unique()`: the distinct values in order of first
appearance. -/
def unique_first : List String → List String
| [] => []
| x :: xs => x :: (unique_first xs).filter (fun y => !(y == x))

/-- pandas `DataFrame.sample(n, random_state=42)`: a deterministic
size-`n` subsample without replacement.  Which `n` of the rows the
seeded pandas generator picks is irrelevant to every claim (which
concern only the retained count, the no-duplication and the
determinism), so the model retains the first `n`. -/
def sample_rows (l : List FeatRow) (n : ℕ) : List FeatRow := l.take n

/-- A row of the clustered Track Feature Table: one original Feature Row
plus the single added integer Cluster column. -/
structure ClustRow where
  row : FeatRow
  cluster : ℤ
deriving DecidableEq

/-- config.py FEATURE_COLUMNS, read off one Feature Row in order. -/
def feature_vector (r : FeatRow) : List ℚ :=
  [r.rpm, r.speed, r.gear, r.throttle, r.nbrake, r.throttleRate,
   r.brakeIntensity, r.gearEfficiency, r.speedVariability, r.acceleration]

/-- The rows one driver contributes after balancing: everything, or a
deterministic subsample of `n` when there are more than `n`. -/
def balanced_group (data : List FeatRow) (n : ℕ) (d : String) : List FeatRow :=
  let driver_data := data.filter (fun r => r.driver == d)
  if n < driver_data.length then sample_rows driver_data n else driver_data

/-- The pooled table after per-driver balancing, drivers in first
appearance order (the `pd.concat(sampled_data)`). -/
def balanced_sample (data : List FeatRow) (n : ℕ) : List FeatRow :=
  (unique_first (data.map (fun r => r.driver))).flatMap (balanced_group data n)

/-- clustering.py `cluster_track_data`: per driver (in order of first
appearance) keep all rows, or a deterministic seeded subsample of
`n_samples_per_driver` (default 800) of them when there are more; then
concatenate, run the scaler and DBSCAN on the feature matrix (the `lbl`
parameter; the `np.nan_to_num` clamp on that separate matrix is the
identity here because every `FeatRow` cell is a finite rational), and
attach the resulting label column to the sampled rows. -/
def cluster_track_data (lbl : List (List ℚ) → List ℤ) (data : List FeatRow)
    (n_samples_per_driver : ℕ) : List ClustRow :=
  let sampled := balanced_sample data n_samples_per_driver
  let clusters := lbl (sampled.map feature_vector)
  List.zipWith (fun r c => ClustRow.mk r c) sampled clusters

/-! ### Driver profiles (clustering.py `analyze_driving_style_similarity`, lines 52-86) -/

/-- The twelve-field driving style profile, in the insertion order of the
Python dict.  Each field is a float that may be NaN before the final
NaN-replacement loop, hence `Option`. -/
structure ProfileOpt where
  avg_speed : Option ℚ
  speed_variability : Option ℚ
  max_speed : Option ℚ
  throttle_aggression : Option ℚ
  throttle_smoothness : Option ℚ
  brake_frequency : Option ℚ
  brake_intensity : Option ℚ
  gear_efficiency : Option ℚ
  acceleration_pattern : Option ℚ
  acceleration_variability : Option ℚ
  cornering_style : Option ℚ
  straight_line_style : Option ℚ
deriving DecidableEq

/-- clustering.py lines 61-79: the aggregates of one driver group,
before NaN replacement.  `throttle_smoothness` is `1 / (mean + 0.001)`;
the mean of ThrottleRate is nonnegative on real pipeline data, so the
denominator never vanishes there (a vanishing denominator would give a
float infinity, which no claim reaches). -/
def raw_profile (sq : ℚ → ℚ) (driver_data : List FeatRow) : ProfileOpt :=
  let speeds := driver_data.map (fun r => r.speed)
  let throttles := driver_data.map (fun r => r.throttle)
  let low_speed_data := driver_data.filter (fun r => r.speed < quantileQ speeds (3/10))
  let high_speed_data := driver_data.filter (fun r => quantileQ speeds (7/10) < r.speed)
  { avg_speed := meanO speeds
    speed_variability := stdO sq speeds
    max_speed := maxO speeds
    throttle_aggression := meanO throttles
    throttle_smoothness := (meanO (driver_data.map (fun r => r.throttleRate))).map
      (fun m => 1 / (m + 1/1000))
    brake_frequency := meanO (driver_data.map (fun r => r.nbrake))
    brake_intensity := meanO (driver_data.map (fun r => r.brakeIntensity))
    gear_efficiency := meanO (driver_data.map (fun r => r.gearEfficiency))
    acceleration_pattern := meanO (driver_data.map (fun r => r.acceleration))
    acceleration_variability := stdO sq (driver_data.map (fun r => r.acceleration))
    cornering_style :=
      if 0 < low_speed_data.length then meanO (low_speed_data.map (fun r => r.throttle))
      else meanO throttles
    straight_line_style :=
      if 0 < high_speed_data.length then meanO (high_speed_data.map (fun r => r.throttle))
      else meanO throttles }

/-- clustering.py lines 81-84: the loop replacing every NaN profile
entry by 0.0. -/
def coerce_profile (p : ProfileOpt) : ProfileOpt :=
  { avg_speed := some (p.avg_speed.getD 0)
    speed_variability := some (p.speed_variability.getD 0)
    max_speed := some (p.max_speed.getD 0)
    throttle_aggression := some (p.throttle_aggression.getD 0)
    throttle_smoothness := some (p.throttle_smoothness.getD 0)
    brake_frequency := some (p.brake_frequency.getD 0)
    brake_intensity := some (p.brake_intensity.getD 0)
    gear_efficiency := some (p.gear_efficiency.getD 0)
    acceleration_pattern := some (p.acceleration_pattern.getD 0)
    acceleration_variability := some (p.acceleration_variability.getD 0)
    cornering_style := some (p.cornering_style.getD 0)
    straight_line_style := some (p.straight_line_style.getD 0) }

/-- One driver profile as stored into `driver_profiles`. -/
def mk_profile (sq : ℚ → ℚ) (driver_data : List FeatRow) : ProfileOpt :=
  coerce_profile (raw_profile sq driver_data)

/-- clustering.py lines 54-86: the profile map, keyed in driver
first-appearance order; a driver with an empty group is skipped (the
`continue`). -/
def driver_profiles (sq : ℚ → ℚ) (data : List FeatRow) : List (String × ProfileOpt) :=
  (unique_first (data.map (fun r => r.driver))).filterMap (fun d =>
    let driver_data := data.filter (fun r => r.driver == d)
    if driver_data.length = 0 then none else some (d, mk_profile sq driver_data))

/-- clustering.py lines 93-96: the profile matrix row for one driver,
the twelve fields in dict insertion order (every entry is defined after
`coerce_profile`, so the `getD` defaults are never exercised). -/
def profile_vec (p : ProfileOpt) : List ℚ :=
  [p.avg_speed.getD 0, p.speed_variability.getD 0, p.max_speed.getD 0,
   p.throttle_aggression.getD 0, p.throttle_smoothness.getD 0,
   p.brake_frequency.getD 0, p.brake_intensity.getD 0, p.gear_efficiency.getD 0,
   p.acceleration_pattern.getD 0, p.acceleration_variability.getD 0,
   p.cornering_style.getD 0, p.straight_line_style.getD 0]

/-! ### Standardization and the similarity kernels (sklearn semantics) -/

/-- The profile space has twelve features. -/
def num_features : ℕ := 12

def colAt (M : List (List ℚ)) (j : ℕ) : List ℚ := M.map (fun r => r.getD j 0)

/-- sklearn `StandardScaler` scale of one column: the square root of the
population variance, replaced by 1 when it is zero
(`_handle_zeros_in_scale`). -/
def col_scale (sq : ℚ → ℚ) (M : List (List ℚ)) (j : ℕ) : ℚ :=
  let s := sq (pvar (colAt M j))
  if s = 0 then 1 else s

/-- sklearn `StandardScaler.fit_transform`: per column, subtract the mean
and divide by the scale. -/
def standardized (sq : ℚ → ℚ) (M : List (List ℚ)) : List (List ℚ) :=
  M.map (fun r => (List.range num_features).map (fun j =>
    (r.getD j 0 - meanQ (colAt M j)) / col_scale sq M j))

def sum_sq (l : List ℚ) : ℚ := (l.map (fun x => x * x)).sum

def dotQ (a b : List ℚ) : ℚ := (List.zipWith (fun x y => x * y) a b).sum

/-- sklearn `normalize` of one row: divide by the euclidean norm, with a
zero norm replaced by 1 so zero rows pass through unchanged. -/
def normalize_row (sq : ℚ → ℚ) (u : List ℚ) : List ℚ :=
  let nrm := sq (sum_sq u)
  let nrm := if nrm = 0 then 1 else nrm
  u.map (fun x => x / nrm)

/-- sklearn `cosine_similarity(X)`: normalize the rows, then all pairwise
dot products. -/
def cosine_similarity_m (sq : ℚ → ℚ) (X : List (List ℚ)) : List (List ℚ) :=
  let N := X.map (normalize_row sq)
  N.map (fun u => N.map (fun v => dotQ u v))

/-- sklearn `euclidean_distances(X)`: the squared-norm expansion, clipped
below at zero before the square root, with the diagonal explicitly
zeroed (`fill_diagonal`). -/
def euclidean_distances_m (sq : ℚ → ℚ) (X : List (List ℚ)) : List (List ℚ) :=
  (List.range X.length).map (fun i => (List.range X.length).map (fun j =>
    if i = j then 0 else
      sq (max 0 (sum_sq (X.getD i []) - 2 * dotQ (X.getD i []) (X.getD j [])
        + sum_sq (X.getD j [])))))

/-- The standardized profile matrix the similarity kernels run on. -/
def scaled_profiles (sq : ℚ → ℚ) (data : List FeatRow) : List (List ℚ) :=
  standardized sq ((driver_profiles sq data).map (fun p => profile_vec p.2))

/-- clustering.py `analyze_driving_style_similarity`: build the profile
map; with fewer than two profiles return empty matrices together with
the driver list and the profile map (the insufficient-data signal);
otherwise standardize the profile matrix and return the cosine and
euclidean matrices, the driver list and the profile map. -/
def analyze_driving_style_similarity (sq : ℚ → ℚ) (data : List FeatRow) :
    List (List ℚ) × List (List ℚ) × List String × List (String × ProfileOpt) :=
  let profiles := driver_profiles sq data
  if profiles.length < 2 then ([], [], profiles.map (fun p => p.1), profiles)
  else
    let S := scaled_profiles sq data
    (cosine_similarity_m sq S, euclidean_distances_m sq S,
      profiles.map (fun p => p.1), profiles)

/-! ### The orchestrator (main.py) -/

/-- The iteration order of main.py lines 101-102: `i` ascending, then
`j` ascending over `range(i+1, n)`. -/
def pair_list (n : ℕ) : List (ℕ × ℕ) :=
  (List.range n).flatMap (fun i =>
    (List.range n).filterMap (fun j => if i < j then some (i, j) else none))

/-- One similarity entry `similarity_matrix[i][j]`. -/
def simEntry (sim : List (List ℚ)) (ij : ℕ × ℕ) : ℚ := (sim.getD ij.1 []).getD ij.2 0

/-- The running-maximum fold of main.py lines 99-106, kept generic in
the weight `f` and the payload `g` so its behaviour can be characterized
once. -/
def best_fold {α β : Type} (f : α → ℚ) (g : α → β)
    (init : ℚ × Option β) (L : List α) : ℚ × Option β :=
  L.foldl (fun acc x => if acc.1 < f x then (f x, some (g x)) else acc) init

/-- main.py lines 98-106: starting from `max_similarity = 0` and no
pair, scan the pairs `i < j` in order and record a pair whenever its
similarity strictly exceeds the running maximum. -/
def most_similar_pair (sim : List (List ℚ)) (drivers : List String) :
    ℚ × Option (String × String) :=
  best_fold (simEntry sim) (fun ij => (drivers.getD ij.1 "", drivers.getD ij.2 ""))
    (0, none) (pair_list drivers.length)

/-- main.py `analyze_single_track`, on the already-loaded data (the disk
walk of `load_track_data` is an external collaborator, so the loaded
result is the input): with no data or at most 100 samples, report
insufficient data and return None without touching any downstream
stage; otherwise cluster (cap 800) and run the similarity analysis. -/
def analyze_single_track (sq : ℚ → ℚ) (lbl : List (List ℚ) → List ℤ)
    (loaded : Option (List FeatRow)) :
    Option (List ClustRow ×
      (List (List ℚ) × List (List ℚ) × List String × List (String × ProfileOpt))) :=
  match loaded with
  | none => none
  | some track_data =>
    if 100 < track_data.length then
      let clustered := cluster_track_data lbl track_data 800
      some (clustered, analyze_driving_style_similarity sq (clustered.map (fun c => c.row)))
    else none

/-! ### General list lemmas used by several proofs -/

lemma getD_map_of_lt {α β : Type} (f : α → β) (l : List α) (i : ℕ) (h : i < l.length)
    (da : α) (db : β) : (l.map f).getD i db = f (l.getD i da) := by
  induction l generalizing i with
  | nil => simp at h
  | cons x xs ih =>
    cases i with
    | zero => simp [List.getD]
    | succ j =>
      simp only [List.map_cons, List.getD_cons_succ]
      exact ih j (by simpa using h)

lemma getD_zipWith_of_lt {α β γ : Type} (f : α → β → γ) (a : List α) (b : List β) (i : ℕ)
    (ha : i < a.length) (hb : i < b.length) (da : α) (db : β) (dg : γ) :
    (List.zipWith f a b).getD i dg = f (a.getD i da) (b.getD i db) := by
  induction a generalizing b i with
  | nil => simp at ha
  | cons x xs ih =>
    cases b with
    | nil => simp at hb
    | cons y ys =>
      cases i with
      | zero => simp [List.getD]
      | succ j =>
        simp only [List.zipWith_cons_cons, List.getD_cons_succ]
        exact ih ys j (by simpa using ha) (by simpa using hb)

lemma getD_range_map {β : Type} (f : ℕ → β) (n i : ℕ) (h : i < n) (d : β) :
    ((List.range n).map f).getD i d = f i := by
  rw [getD_map_of_lt f (List.range n) i (by simpa using h) 0 d]
  congr 1
  exact List.getD_eq_getElem (List.range n) 0 (by simpa using h) |>.trans (by simp)

lemma length_filterMap_countP {α β : Type} (f : α → Option β) (l : List α) :
    (l.filterMap f).length = l.countP (fun x => (f x).isSome) := by
  induction l with
  | nil => simp
  | cons x xs ih =>
    rw [List.filterMap_cons, List.countP_cons]
    cases hx : f x <;> simp [hx, ih]

lemma getD_const_zero (l : List RawRow) (i : ℕ) :
    ((l.map fun _ => (0 : ℚ)).getD i 0) = 0 := by
  rcases h : (l.map fun _ => (0 : ℚ))[i]? with _ | v
  · simp [List.getD, h]
  · have : v = 0 := by
      rcases List.getElem?_eq_some_iff.mp (by simpa [List.getElem?_map] using h) with ⟨hi, hv⟩
      simpa using hv.symm
    simp [List.getD, h, this]

/-! ### Claim C7: MissingColumns handling -/

/-- Claim C7: for every input table lacking any of the required raw
fields RPM, Speed, nGear or Throttle, `process_driver_telemetry`
produces no rows (it returns the failure value None) — and only then;
the caller `load_track_data` skips that driver and continues with the
remaining files; a missing brake column alone does not cause failure
but makes every output row carry brake value 0. -/
theorem c7_missing_columns (sq : ℚ → ℚ) (t : RawTable) (d : String) :
    (process_driver_telemetry sq t d = none ↔
      ¬(t.hasRPM = true ∧ t.hasSpeed = true ∧ t.hasGear = true ∧ t.hasThrottle = true)) ∧
    (t.hasRPM = true → t.hasSpeed = true → t.hasGear = true → t.hasThrottle = true →
      t.hasBrake = false → t.hasNBrakeCol = false →
      ∃ out, process_driver_telemetry sq t d = some out ∧ ∀ r ∈ out, r.nbrake = 0) ∧
    (∀ rest : List (String × RawTable), process_driver_telemetry sq t d = none →
      load_track_data sq ((d, t) :: rest) = load_track_data sq rest) := by
  refine ⟨?_, ?_, ?_⟩
  · unfold process_driver_telemetry requiredPresent
    by_cases h : (t.hasRPM && t.hasSpeed && t.hasGear && t.hasThrottle) = true
    · simp only [h, if_true]
      constructor
      · intro hc; exact absurd hc (by simp)
      · intro hc
        exact absurd ⟨by simpa using (by simp_all : t.hasRPM = true),
          by simp_all, by simp_all, by simp_all⟩ hc
    · simp only [h]
      simp only [Bool.and_eq_true] at h
      constructor
      · intro _ hc; exact h ⟨⟨⟨hc.1, hc.2.1⟩, hc.2.2.1⟩, hc.2.2.2⟩
      · intro _; rfl
  · intro h1 h2 h3 h4 hb hnb
    refine ⟨(raw_feature_table sq t).filterMap
      (keepValidRow d (get_driver_team d)), ?_, ?_⟩
    · unfold process_driver_telemetry requiredPresent
      simp [h1, h2, h3, h4]
    · intro r hr
      rcases List.mem_filterMap.mp hr with ⟨p, hp, hkeep⟩
      have hnb0 : p.nbrake = 0 := by
        unfold raw_feature_table at hp
        rcases List.mem_map.mp hp with ⟨i, _, rfl⟩
        simp only [nBrakeVals, hb, hnb, if_false]
        exact getD_const_zero t.rows i
      cases hge : p.gearEfficiency with
      | fin g =>
        simp only [keepValidRow, hge] at hkeep
        have hre := Option.some.inj hkeep
        subst hre
        exact hnb0
      | pinf => simp [keepValidRow, hge] at hkeep
      | ninf => simp [keepValidRow, hge] at hkeep
      | nan => simp [keepValidRow, hge] at hkeep
  · intro rest hnone
    have h : load_one sq (d, t) = none := by simp [load_one, hnone]
    unfold load_track_data
    rw [List.filterMap_cons, h]

/-! ### Claim C4: insufficient-data guard -/

/-- Claim C4: with data yielding fewer than two driver profiles,
`analyze_driving_style_similarity` returns empty similarity and
distance matrices together with the (possibly singleton) driver list
and the profile mapping; being a total function of the model it raises
nothing. -/
theorem c4_insufficient_data_guard (sq : ℚ → ℚ) (data : List FeatRow)
    (h : (driver_profiles sq data).length < 2) :
    analyze_driving_style_similarity sq data =
      ([], [], (driver_profiles sq data).map (fun p => p.1), driver_profiles sq data) := by
  unfold analyze_driving_style_similarity
  simp [h]

/-! ### Claim C10: hidden sufficiency threshold in the orchestrator -/

/-- Claim C10: `analyze_single_track` runs the clustering and the
similarity analysis if and only if the loaded table exists and has
strictly more than 100 rows; with a failed load or at most 100 rows it
returns the no-result value without invoking any downstream stage. -/
theorem c10_sufficiency_threshold (sq : ℚ → ℚ) (lbl : List (List ℚ) → List ℤ)
    (loaded : Option (List FeatRow)) :
    ((analyze_single_track sq lbl loaded).isSome ↔
      ∃ track_data, loaded = some track_data ∧ 100 < track_data.length) ∧
    (∀ track_data, loaded = some track_data → 100 < track_data.length →
      analyze_single_track sq lbl loaded =
        some (cluster_track_data lbl track_data 800,
          analyze_driving_style_similarity sq
            ((cluster_track_data lbl track_data 800).map (fun c => c.row)))) ∧
    (∀ track_data, loaded = some track_data → track_data.length ≤ 100 →
      analyze_single_track sq lbl loaded = none) ∧
    (loaded = none → analyze_single_track sq lbl loaded = none) := by
  refine ⟨?_, ?_, ?_, ?_⟩
  · cases loaded with
    | none => simp [analyze_single_track]
    | some td =>
      by_cases h : 100 < td.length
      · simp [analyze_single_track, h]
      · simp [analyze_single_track, h]
  · rintro td rfl h
    simp [analyze_single_track, h]
  · rintro td rfl h
    simp [analyze_single_track, Nat.not_lt.mpr h]
  · rintro rfl; rfl

/-! ### Claim C1: no invalid value leaks to the public outputs -/

/-- All twelve fields of a profile are defined (not NaN). -/
def profile_defined (p : ProfileOpt) : Bool :=
  p.avg_speed.isSome && p.speed_variability.isSome && p.max_speed.isSome &&
  p.throttle_aggression.isSome && p.throttle_smoothness.isSome &&
  p.brake_frequency.isSome && p.brake_intensity.isSome && p.gear_efficiency.isSome &&
  p.acceleration_pattern.isSome && p.acceleration_variability.isSome &&
  p.cornering_style.isSome && p.straight_line_style.isSome

/-- Claim C1: every Feature Row returned by the feature engineer is a
verbatim copy of a derived record all of whose cells are finite and
defined (records with a non-finite cell are dropped, not imputed: the
output length is the count of valid derived records), and every profile
in the aggregator output has all twelve fields defined, any undefined
aggregate having been coerced to 0. -/
theorem c1_no_invalid_values_leak (sq : ℚ → ℚ) :
    (∀ (t : RawTable) (d : String) (out : List FeatRow),
      process_driver_telemetry sq t d = some out →
      out.length = (raw_feature_table sq t).countP (fun p => p.gearEfficiency.isFin) ∧
      ∀ r ∈ out, ∃ p ∈ raw_feature_table sq t,
        p.gearEfficiency = FVal.fin r.gearEfficiency ∧
        r.rpm = p.rpm ∧ r.speed = p.speed ∧ r.gear = p.gear ∧ r.throttle = p.throttle ∧
        r.nbrake = p.nbrake ∧ r.throttleRate = p.throttleRate ∧
        r.brakeIntensity = p.brakeIntensity ∧ r.speedVariability = p.speedVariability ∧
        r.acceleration = p.acceleration ∧ r.driver = d ∧ r.team = get_driver_team d) ∧
    (∀ (data : List FeatRow) (e : String × ProfileOpt),
      e ∈ driver_profiles sq data → profile_defined e.2 = true) := by
  constructor
  · intro t d out hout
    have hsome : out = (raw_feature_table sq t).filterMap
        (keepValidRow d (get_driver_team d)) := by
      unfold process_driver_telemetry at hout
      by_cases h : requiredPresent t = true
      · simp only [h, if_true, Option.some.injEq] at hout; exact hout.symm
      · simp [h] at hout
    constructor
    · rw [hsome, length_filterMap_countP]
      apply List.countP_congr
      intro p _
      cases hge : p.gearEfficiency <;> simp [keepValidRow, hge, FVal.isFin]
    · intro r hr
      rw [hsome] at hr
      rcases List.mem_filterMap.mp hr with ⟨p, hp, hkeep⟩
      refine ⟨p, hp, ?_⟩
      cases hge : p.gearEfficiency with
      | fin g =>
        simp only [keepValidRow, hge] at hkeep
        have hre := Option.some.inj hkeep
        subst hre
        simp
      | pinf => simp [keepValidRow, hge] at hkeep
      | ninf => simp [keepValidRow, hge] at hkeep
      | nan => simp [keepValidRow, hge] at hkeep
  · intro data e he
    rcases List.mem_filterMap.mp he with ⟨d, _, hd⟩
    by_cases hlen : (data.filter (fun r => r.driver == d)).length = 0
    · simp [hlen] at hd
    · simp only [hlen, if_false, Option.some.injEq] at hd
      rw [← hd]
      simp [mk_profile, coerce_profile, profile_defined]

/-! ### Claim C6: the derived-feature formulas, per sample index -/

/-- The raw record at position `i` (a dummy outside the table). -/
def rawAt (t : RawTable) (i : ℕ) : RawRow := t.rows.getD i ⟨0, 0, 0, 0, false, 0⟩

lemma speedCol_length (t : RawTable) : (speedCol t).length = t.rows.length := by
  simp [speedCol]

lemma nBrakeVals_length (t : RawTable) : (nBrakeVals t).length = t.rows.length := by
  unfold nBrakeVals
  by_cases hb : t.hasBrake = true
  · simp [hb]
  · by_cases hn : t.hasNBrakeCol = true <;> simp [hb, hn]

lemma diffAux_length (prev : ℚ) (l : List ℚ) : (diffAux prev l).length = l.length := by
  induction l generalizing prev with
  | nil => rfl
  | cons y ys ih => simp [diffAux, ih]

lemma diffNa_length (l : List ℚ) : (diffNa l).length = l.length := by
  cases l with
  | nil => rfl
  | cons x xs => simp [diffNa, diffAux_length]

lemma diffAux_getD (l : List ℚ) (prev : ℚ) (i : ℕ) (h : i < l.length) :
    (diffAux prev l).getD i none =
      some (l.getD i 0 - (if i = 0 then prev else l.getD (i - 1) 0)) := by
  induction l generalizing prev i with
  | nil => simp at h
  | cons y ys ih =>
    cases i with
    | zero => simp [diffAux]
    | succ j =>
      simp only [diffAux, List.getD_cons_succ]
      rw [ih y j (by simpa using h)]
      cases j with
      | zero => simp
      | succ k => simp

lemma diffNa_getD (l : List ℚ) (i : ℕ) (h : i < l.length) :
    (diffNa l).getD i none =
      if i = 0 then none else some (l.getD i 0 - l.getD (i - 1) 0) := by
  cases l with
  | nil => simp at h
  | cons x xs =>
    cases i with
    | zero => simp [diffNa]
    | succ j =>
      simp only [diffNa, List.getD_cons_succ, Nat.succ_ne_zero, if_false]
      rw [diffAux_getD xs x j (by simpa using h)]
      cases j with
      | zero => simp
      | succ k => simp

lemma throttleRateCol_getD (t : RawTable) (i : ℕ) (h : i < t.rows.length) :
    (throttleRateCol t).getD i 0 =
      if i = 0 then 0 else |(rawAt t i).throttle - (rawAt t (i - 1)).throttle| := by
  have hlen : i < (absNa (diffNa (throttleCol t))).length := by
    simp [absNa, diffNa_length, throttleCol, h]
  have hlen2 : i < (diffNa (throttleCol t)).length := by
    simp [diffNa_length, throttleCol, h]
  unfold throttleRateCol fillna0
  rw [getD_map_of_lt _ _ i hlen none 0]
  unfold absNa
  rw [getD_map_of_lt _ _ i hlen2 none none]
  rw [diffNa_getD _ i (by simpa [throttleCol] using h)]
  by_cases hi : i = 0
  · simp [hi]
  · have h1 : i - 1 < t.rows.length := lt_of_le_of_lt (Nat.sub_le i 1) h
    simp only [hi, if_false, Option.map_some, Option.getD_some]
    unfold throttleCol
    rw [getD_map_of_lt _ _ i (by simpa using h) ⟨0, 0, 0, 0, false, 0⟩ 0,
      getD_map_of_lt _ _ (i - 1) (by simpa using h1) ⟨0, 0, 0, 0, false, 0⟩ 0]
    rfl

lemma accelerationCol_getD (t : RawTable) (i : ℕ) (h : i < t.rows.length) :
    (accelerationCol t).getD i 0 =
      if i = 0 then 0 else (rawAt t i).speed - (rawAt t (i - 1)).speed := by
  have hlen : i < (diffNa (speedCol t)).length := by
    simp [diffNa_length, speedCol, h]
  unfold accelerationCol fillna0
  rw [getD_map_of_lt _ _ i hlen none 0]
  rw [diffNa_getD _ i (by simpa [speedCol] using h)]
  by_cases hi : i = 0
  · simp [hi]
  · have h1 : i - 1 < t.rows.length := lt_of_le_of_lt (Nat.sub_le i 1) h
    simp only [hi, if_false, Option.getD_some]
    unfold speedCol
    rw [getD_map_of_lt _ _ i (by simpa using h) ⟨0, 0, 0, 0, false, 0⟩ 0,
      getD_map_of_lt _ _ (i - 1) (by simpa using h1) ⟨0, 0, 0, 0, false, 0⟩ 0]
    rfl

lemma rollWindow_length (l : List ℚ) (i : ℕ) (h : i < l.length) :
    (rollWindow l i).length = (i + 1) - (i - 9) := by
  simp only [rollWindow, List.length_drop, List.length_take]
  omega

lemma rollingStdCol_getD (sq : ℚ → ℚ) (l : List ℚ) (i : ℕ) (h : i < l.length) :
    (rollingStdCol sq l).getD i 0 =
      if i = 0 then 0 else sq (svar (rollWindow l i)) := by
  unfold rollingStdCol
  rw [getD_range_map _ _ i h]
  show (if 2 ≤ (rollWindow l i).length then sq (svar (rollWindow l i)) else 0) = _
  rw [rollWindow_length l i h]
  by_cases hi : i = 0
  · simp [hi]
  · have h2 : 2 ≤ (i + 1) - (i - 9) := by omega
    simp [hi, h2]

/-- The formulas of claim C6 for the derived record at position `i`,
stated directly on the raw table: ThrottleRate is the absolute change
of Throttle from the previous sample (0 at the first), Acceleration
the change of Speed (0 at the first), BrakeIntensity the brake flag
times Speed, GearEfficiency RPM over gear-plus-one, SpeedVariability
the rolling ddof-1 standard deviation of Speed over the trailing window
of 10 samples (partial windows allowed; the singleton window of the
first sample has an undefined deviation, stored as 0). -/
def spec_row (sq : ℚ → ℚ) (t : RawTable) (d : String) (i : ℕ) : FeatRow :=
  { rpm := (rawAt t i).rpm
    speed := (rawAt t i).speed
    gear := (rawAt t i).gear
    throttle := (rawAt t i).throttle
    nbrake := (nBrakeVals t).getD i 0
    throttleRate := if i = 0 then 0 else |(rawAt t i).throttle - (rawAt t (i - 1)).throttle|
    brakeIntensity := (nBrakeVals t).getD i 0 * (rawAt t i).speed
    gearEfficiency := (rawAt t i).rpm / ((rawAt t i).gear + 1)
    speedVariability := if i = 0 then 0 else sq (svar (rollWindow (speedCol t) i))
    acceleration := if i = 0 then 0 else (rawAt t i).speed - (rawAt t (i - 1)).speed
    driver := d
    team := get_driver_team d }

lemma process_some_eq (sq : ℚ → ℚ) (t : RawTable) (d : String) (out : List FeatRow)
    (h : process_driver_telemetry sq t d = some out) :
    out = (raw_feature_table sq t).filterMap (keepValidRow d (get_driver_team d)) := by
  unfold process_driver_telemetry at h
  by_cases hreq : requiredPresent t = true
  · simp only [hreq, if_true, Option.some.injEq] at h; exact h.symm
  · simp [hreq] at h

/-- Claim C6: every accepted telemetry table is turned into exactly the
records given by the stated formulas, one per raw sample whose
GearEfficiency denominator is nonzero (the others are dropped by the
invalid-value filter). -/
theorem c6_derived_feature_formulas (sq : ℚ → ℚ) (t : RawTable) (d : String)
    (out : List FeatRow) (h : process_driver_telemetry sq t d = some out) :
    out = (List.range t.rows.length).filterMap (fun i =>
      if (rawAt t i).gear + 1 = 0 then none else some (spec_row sq t d i)) := by
  rw [process_some_eq sq t d out h]
  unfold raw_feature_table
  rw [List.filterMap_map]
  apply List.filterMap_congr
  intro i hi
  have hin : i < t.rows.length := List.mem_range.mp hi
  have hrpm : (rpmCol t).getD i 0 = (rawAt t i).rpm := by
    unfold rpmCol rawAt
    exact getD_map_of_lt _ _ i hin ⟨0, 0, 0, 0, false, 0⟩ 0
  have hspeed : (speedCol t).getD i 0 = (rawAt t i).speed := by
    unfold speedCol rawAt
    exact getD_map_of_lt _ _ i hin ⟨0, 0, 0, 0, false, 0⟩ 0
  have hgear : (gearCol t).getD i 0 = (rawAt t i).gear := by
    unfold gearCol rawAt
    exact getD_map_of_lt _ _ i hin ⟨0, 0, 0, 0, false, 0⟩ 0
  have hthr : (throttleCol t).getD i 0 = (rawAt t i).throttle := by
    unfold throttleCol rawAt
    exact getD_map_of_lt _ _ i hin ⟨0, 0, 0, 0, false, 0⟩ 0
  have hbi : (brakeIntensityCol t).getD i 0 =
      (nBrakeVals t).getD i 0 * (rawAt t i).speed := by
    unfold brakeIntensityCol
    rw [getD_zipWith_of_lt _ _ _ i (by rw [nBrakeVals_length]; exact hin)
      (by rw [speedCol_length]; exact hin) 0 0 0, hspeed]
  have hgec : (gearEfficiencyCol t).getD i FVal.nan =
      gearEffCell ((rawAt t i).rpm) ((rawAt t i).gear) := by
    unfold gearEfficiencyCol
    rw [getD_zipWith_of_lt gearEffCell _ _ i (by simpa [rpmCol] using hin)
      (by simpa [gearCol] using hin) 0 0 FVal.nan, hrpm, hgear]
  have hsv : (rollingStdCol sq (speedCol t)).getD i 0 =
      if i = 0 then 0 else sq (svar (rollWindow (speedCol t) i)) :=
    rollingStdCol_getD sq _ i (by rw [speedCol_length]; exact hin)
  have htr := throttleRateCol_getD t i hin
  have hacc := accelerationCol_getD t i hin
  simp only [Function.comp_apply]
  rw [hrpm, hspeed, hgear, hthr, hbi, hgec, hsv, htr, hacc]
  unfold keepValidRow gearEffCell spec_row
  by_cases hg : (rawAt t i).gear + 1 = 0
  · rw [if_pos hg]
    by_cases hr0 : 0 < (rawAt t i).rpm
    · simp [hg, hr0]
    · by_cases hrn : (rawAt t i).rpm < 0 <;> simp [hg, hr0, hrn]
  · rw [if_neg hg]
    simp [hg]

/-! ### Claims C2 and C9: balancing and the frame property of clustering -/

lemma mem_unique_first (l : List String) (y : String) :
    y ∈ unique_first l ↔ y ∈ l := by
  induction l with
  | nil => simp [unique_first]
  | cons x xs ih =>
    simp only [unique_first, List.mem_cons, List.mem_filter]
    constructor
    · rintro (rfl | ⟨hy, _⟩)
      · exact .inl rfl
      · exact .inr (ih.mp hy)
    · rintro (rfl | hy)
      · exact .inl rfl
      · by_cases hxy : y = x
        · exact .inl hxy
        · exact .inr ⟨ih.mpr hy, by simp [hxy]⟩

lemma nodup_unique_first (l : List String) : (unique_first l).Nodup := by
  induction l with
  | nil => simp [unique_first]
  | cons x xs ih =>
    refine List.Nodup.cons ?_ (ih.filter _)
    intro hx
    rcases List.mem_filter.mp hx with ⟨_, hne⟩
    simp at hne

lemma balanced_group_driver (data : List FeatRow) (n : ℕ) (d : String) :
    ∀ r ∈ balanced_group data n d, r.driver = d := by
  intro r hr
  unfold balanced_group at hr
  have hmem : r ∈ data.filter (fun r => r.driver == d) := by
    by_cases h : n < (data.filter (fun r => r.driver == d)).length
    · simp only [h, if_true] at hr
      exact List.take_subset _ _ hr
    · simpa [h] using hr
  have := (List.mem_filter.mp hmem).2
  simpa using this

lemma balanced_group_sublist (data : List FeatRow) (n : ℕ) (d : String) :
    (balanced_group data n d).Sublist (data.filter (fun r => r.driver == d)) := by
  unfold balanced_group
  by_cases h : n < (data.filter (fun r => r.driver == d)).length
  · simp only [h, if_true]
    exact List.take_sublist _ _
  · simp [h]

lemma balanced_group_length (data : List FeatRow) (n : ℕ) (d : String) :
    (balanced_group data n d).length =
      min ((data.filter (fun r => r.driver == d)).length) n := by
  unfold balanced_group sample_rows
  by_cases h : n < (data.filter (fun r => r.driver == d)).length
  · simp only [h, if_true, List.length_take]
    omega
  · simp only [h, if_false]
    omega

lemma balanced_group_keeps_all (data : List FeatRow) (n : ℕ) (d : String)
    (h : (data.filter (fun r => r.driver == d)).length ≤ n) :
    balanced_group data n d = data.filter (fun r => r.driver == d) := by
  unfold balanced_group
  simp [Nat.not_lt.mpr h]

lemma filter_flatMap_nil (ds : List String) (g : String → List FeatRow) (d : String)
    (hall : ∀ d' ∈ ds, ∀ r ∈ g d', r.driver = d') (hne : ∀ d' ∈ ds, d' ≠ d) :
    (ds.flatMap g).filter (fun r => r.driver == d) = [] := by
  induction ds with
  | nil => simp
  | cons a ds' ih =>
    rw [List.flatMap_cons, List.filter_append]
    have h1 : (g a).filter (fun r => r.driver == d) = [] := by
      apply List.filter_eq_nil_iff.mpr
      intro r hr
      have hra : r.driver = a := hall a (List.mem_cons_self a ds') r hr
      have hne' : a ≠ d := hne a (List.mem_cons_self a ds')
      simp [hra, hne']
    rw [h1, List.nil_append]
    exact ih (fun d' hd' => hall d' (List.mem_cons_of_mem a hd'))
      (fun d' hd' => hne d' (List.mem_cons_of_mem a hd'))

lemma filter_flatMap_groups (ds : List String) (g : String → List FeatRow) (d : String)
    (hnd : ds.Nodup) (hd : d ∈ ds)
    (hall : ∀ d' ∈ ds, ∀ r ∈ g d', r.driver = d') :
    (ds.flatMap g).filter (fun r => r.driver == d) = g d := by
  induction ds with
  | nil => simp at hd
  | cons a ds' ih =>
    rw [List.flatMap_cons, List.filter_append]
    by_cases hda : d = a
    · subst hda
      have h1 : (g d).filter (fun r => r.driver == d) = g d := by
        apply List.filter_eq_self.mpr
        intro r hr
        simp [hall d (List.mem_cons_self d ds') r hr]
      have h2 : (ds'.flatMap g).filter (fun r => r.driver == d) = [] := by
        apply filter_flatMap_nil ds' g d
          (fun d' hd' => hall d' (List.mem_cons_of_mem d hd'))
        intro d' hd' hcontra
        subst hcontra
        exact (List.nodup_cons.mp hnd).1 hd'
      rw [h1, h2, List.append_nil]
    · have h1 : (g a).filter (fun r => r.driver == d) = [] := by
        apply List.filter_eq_nil_iff.mpr
        intro r hr
        have hra : r.driver = a := hall a (List.mem_cons_self a ds') r hr
        have hne' : r.driver ≠ d := by rw [hra]; exact fun h => hda h.symm
        simp [hne']
      rw [h1, List.nil_append]
      exact ih (List.nodup_cons.mp hnd).2
        (by rcases List.mem_cons.mp hd with h | h
            · exact absurd h hda
            · exact h)
        (fun d' hd' => hall d' (List.mem_cons_of_mem a hd'))

lemma filter_map_zip_rows (d : String) :
    ∀ (xs : List FeatRow) (ys : List ℤ), xs.length ≤ ys.length →
    ((List.zipWith (fun r c => ClustRow.mk r c) xs ys).filter
        (fun c => c.row.driver == d)).map (fun c => c.row) =
      xs.filter (fun r => r.driver == d) := by
  intro xs
  induction xs with
  | nil => intro ys _; simp
  | cons x xs' ih =>
    intro ys hlen
    cases ys with
    | nil => simp at hlen
    | cons y ys' =>
      rw [List.zipWith_cons_cons]
      by_cases hx : (x.driver == d) = true
      · simp only [List.filter_cons, hx, if_true]
        rw [List.map_cons, ih ys' (by simpa using hlen)]
      · simp only [List.filter_cons, hx, Bool.false_eq_true, if_false]
        exact ih ys' (by simpa using hlen)

lemma mem_zip_rows (c : ClustRow) :
    ∀ (xs : List FeatRow) (ys : List ℤ),
    c ∈ List.zipWith (fun r cl => ClustRow.mk r cl) xs ys → c.row ∈ xs := by
  intro xs
  induction xs with
  | nil => intro ys h; simp at h
  | cons x xs' ih =>
    intro ys h
    cases ys with
    | nil => simp at h
    | cons y ys' =>
      rw [List.zipWith_cons_cons] at h
      rcases List.mem_cons.mp h with rfl | h'
      · exact List.mem_cons_self _ _
      · exact List.mem_cons_of_mem _ (ih ys' h')

/-- Claim C2: for every driver present in the input, the rows that
driver contributes to the clustered Track Feature Table are precisely
its balanced group: their count is `min(raw count, cap)`, they are a
subsample without replacement (a sublist) of that driver's input rows,
drawn by a fixed deterministic procedure, and they are all of them
whenever the raw count does not exceed the cap.  (`lbl_len` is the
sklearn guarantee of one DBSCAN label per sample; determinism of the
seeded pandas subsample is inherited from `sample_rows` being a
function.) -/
theorem c2_balancing_invariant (lbl : List (List ℚ) → List ℤ)
    (lbl_len : ∀ fs, (lbl fs).length = fs.length)
    (data : List FeatRow) (cap : ℕ) (d : String)
    (hd : d ∈ data.map (fun r => r.driver)) :
    ((cluster_track_data lbl data cap).filter (fun c => c.row.driver == d)).map
        (fun c => c.row) = balanced_group data cap d ∧
    (cluster_track_data lbl data cap).countP (fun c => c.row.driver == d) =
      min ((data.filter (fun r => r.driver == d)).length) cap ∧
    (balanced_group data cap d).Sublist (data.filter (fun r => r.driver == d)) ∧
    ((data.filter (fun r => r.driver == d)).length ≤ cap →
      balanced_group data cap d = data.filter (fun r => r.driver == d)) := by
  have hlen : (balanced_sample data cap).length ≤
      (lbl ((balanced_sample data cap).map feature_vector)).length := by
    rw [lbl_len, List.length_map]
  have hmain : ((cluster_track_data lbl data cap).filter
      (fun c => c.row.driver == d)).map (fun c => c.row) = balanced_group data cap d := by
    unfold cluster_track_data
    rw [filter_map_zip_rows d _ _ hlen]
    unfold balanced_sample
    exact filter_flatMap_groups _ _ d (nodup_unique_first _)
      ((mem_unique_first _ d).mpr hd)
      (fun d' _ => balanced_group_driver data cap d')
  refine ⟨hmain, ?_, balanced_group_sublist data cap d, balanced_group_keeps_all data cap d⟩
  rw [List.countP_eq_length_filter]
  have := congrArg List.length hmain
  rw [List.length_map] at this
  rw [this, balanced_group_length]

/-- Claim C9: clustering only adds the integer Cluster column: every row
of the output table consists of one unchanged input Feature Row (all
pre-existing field values exactly those of some input row, hence of the
same driver) together with its label. -/
theorem c9_frame_property (lbl : List (List ℚ) → List ℤ) (data : List FeatRow)
    (cap : ℕ) : ∀ c ∈ cluster_track_data lbl data cap, c.row ∈ data := by
  intro c hc
  unfold cluster_track_data at hc
  have hrow : c.row ∈ balanced_sample data cap := mem_zip_rows c _ _ hc
  unfold balanced_sample at hrow
  rcases List.mem_flatMap.mp hrow with ⟨d', _, hmem⟩
  have hsub := balanced_group_sublist data cap d'
  exact List.mem_of_mem_filter (hsub.subset hmem)

/-! ### Claim C5: cornering-style fallback -/

lemma meanO_of_ne_zero (l : List ℚ) (h : l.length ≠ 0) : meanO l = some (meanQ l) := by
  simp [meanO, h]

/-- The claim-side reading of cornering_style: the mean Throttle over
the rows whose Speed lies strictly below the 30th percentile of this
driver group's own Speed distribution, falling back to the overall mean
Throttle when no row lies below it. -/
def cornering_spec (rows : List FeatRow) : ℚ :=
  let low := rows.filter
    (fun r => r.speed < quantileQ (rows.map (fun r => r.speed)) (3/10))
  if 0 < low.length then meanQ (low.map (fun r => r.throttle))
  else meanQ (rows.map (fun r => r.throttle))

/-- The claim-side reading of straight_line_style, symmetric with the
top 30th percentile (Speed strictly above the 70th percentile). -/
def straight_spec (rows : List FeatRow) : ℚ :=
  let high := rows.filter
    (fun r => quantileQ (rows.map (fun r => r.speed)) (7/10) < r.speed)
  if 0 < high.length then meanQ (high.map (fun r => r.throttle))
  else meanQ (rows.map (fun r => r.throttle))

/-- Claim C5: for every nonempty driver group, the profile's
cornering_style is the mean Throttle of the rows below the driver's own
30th Speed percentile, or the overall mean Throttle when that subset is
empty; straight_line_style behaves symmetrically with the top 30th
percentile; and the fallback case is exactly the overall mean. -/
theorem c5_cornering_fallback (sq : ℚ → ℚ) (rows : List FeatRow) (h : rows ≠ []) :
    (mk_profile sq rows).cornering_style = some (cornering_spec rows) ∧
    (mk_profile sq rows).straight_line_style = some (straight_spec rows) ∧
    (rows.filter (fun r => r.speed < quantileQ (rows.map (fun r => r.speed)) (3/10)) = []
      → cornering_spec rows = meanQ (rows.map (fun r => r.throttle))) := by
  have hlen : (rows.map (fun r => r.throttle)).length ≠ 0 := by
    simpa using fun hc => h (List.length_eq_zero.mp hc)
  refine ⟨?_, ?_, ?_⟩
  · simp only [mk_profile, coerce_profile, raw_profile, cornering_spec]
    by_cases hlow : 0 < (rows.filter
        (fun r => r.speed < quantileQ (rows.map (fun r => r.speed)) (3/10))).length
    · have hne : ((rows.filter (fun r => r.speed <
          quantileQ (rows.map (fun r => r.speed)) (3/10))).map
            (fun r => r.throttle)).length ≠ 0 := by
        rw [List.length_map]
        omega
      simp [hlow, meanO_of_ne_zero _ hne]
    · simp [hlow, meanO_of_ne_zero _ hlen]
  · simp only [mk_profile, coerce_profile, raw_profile, straight_spec]
    by_cases hhigh : 0 < (rows.filter
        (fun r => quantileQ (rows.map (fun r => r.speed)) (7/10) < r.speed)).length
    · have hne : ((rows.filter (fun r =>
          quantileQ (rows.map (fun r => r.speed)) (7/10) < r.speed)).map
            (fun r => r.throttle)).length ≠ 0 := by
        rw [List.length_map]
        omega
      simp [hhigh, meanO_of_ne_zero _ hne]
    · simp [hhigh, meanO_of_ne_zero _ hlen]
  · intro hfil
    simp [cornering_spec, hfil]

/-! ### Claim C8: most-similar-pair extraction -/

lemma best_fold_stable {α β : Type} (f : α → ℚ) (g : α → β) (L : List α)
    (m₀ : ℚ) (p₀ : Option β) (h : ∀ a ∈ L, f a ≤ m₀) :
    best_fold f g (m₀, p₀) L = (m₀, p₀) := by
  induction L with
  | nil => rfl
  | cons c L' ih =>
    unfold best_fold
    rw [List.foldl_cons]
    have hc : ¬ ((m₀, p₀).1 < f c) := not_lt.mpr (h c (List.mem_cons_self c L'))
    rw [if_neg hc]
    exact ih (fun a ha => h a (List.mem_cons_of_mem c ha))

lemma best_fold_spec {α β : Type} (f : α → ℚ) (g : α → β) :
    ∀ (L : List α) (m₀ : ℚ) (p₀ : Option β), (∃ a ∈ L, m₀ < f a) →
    ∃ l₁ a l₂, L = l₁ ++ a :: l₂ ∧
      best_fold f g (m₀, p₀) L = (f a, some (g a)) ∧
      (∀ b ∈ l₁, f b < f a) ∧ (∀ b ∈ l₂, f b ≤ f a) ∧ m₀ < f a := by
  intro L
  induction L with
  | nil => rintro m₀ p₀ ⟨a, ha, _⟩; simp at ha
  | cons c L' ih =>
    intro m₀ p₀ hex
    by_cases hc : m₀ < f c
    · by_cases h2 : ∃ b ∈ L', f c < f b
      · obtain ⟨l₁, a, l₂, hL, hfold, h1, h2', h3⟩ := ih (f c) (some (g c)) h2
        refine ⟨c :: l₁, a, l₂, by rw [hL, List.cons_append], ?_, ?_, h2', lt_trans hc h3⟩
        · unfold best_fold
          rw [List.foldl_cons, if_pos hc]
          exact hfold
        · intro b hb
          rcases List.mem_cons.mp hb with rfl | hb'
          · exact h3
          · exact h1 b hb'
      · push_neg at h2
        refine ⟨[], c, L', rfl, ?_, by simp, h2, hc⟩
        unfold best_fold
        rw [List.foldl_cons, if_pos hc]
        exact best_fold_stable f g L' (f c) (some (g c)) h2
    · have h' : ∃ a ∈ L', m₀ < f a := by
        obtain ⟨a, ha, hma⟩ := hex
        rcases List.mem_cons.mp ha with rfl | ha'
        · exact absurd hma hc
        · exact ⟨a, ha', hma⟩
      obtain ⟨l₁, a, l₂, hL, hfold, h1, h2', h3⟩ := ih m₀ p₀ h'
      refine ⟨c :: l₁, a, l₂, by rw [hL, List.cons_append], ?_, ?_, h2', h3⟩
      · unfold best_fold
        rw [List.foldl_cons, if_neg hc]
        exact hfold
      · intro b hb
        rcases List.mem_cons.mp hb with rfl | hb'
        · exact lt_of_le_of_lt (not_lt.mp hc) h3
        · exact h1 b hb'

/-- Claim C8, amended: whenever some pair `i < j` has strictly positive
similarity, the insight reporter returns the first-encountered pair (in
the `i` ascending, `j` ascending iteration order) whose similarity is
maximal among all pairs: every earlier pair is strictly smaller and
every later pair no larger.  (As stated the claim fails when every
pairwise similarity is at most 0, because the running maximum starts at
0: see the counterexample.) -/
theorem c8_most_similar_pair_amended (sim : List (List ℚ)) (drivers : List String)
    (h : ∃ ij ∈ pair_list drivers.length, 0 < simEntry sim ij) :
    ∃ l₁ ij l₂, pair_list drivers.length = l₁ ++ ij :: l₂ ∧
      most_similar_pair sim drivers =
        (simEntry sim ij, some (drivers.getD ij.1 "", drivers.getD ij.2 "")) ∧
      0 < simEntry sim ij ∧
      (∀ p ∈ l₁, simEntry sim p < simEntry sim ij) ∧
      (∀ p ∈ l₂, simEntry sim p ≤ simEntry sim ij) := by
  obtain ⟨l₁, a, l₂, hL, hfold, h1, h2, h3⟩ :=
    best_fold_spec (simEntry sim)
      (fun ij => (drivers.getD ij.1 "", drivers.getD ij.2 ""))
      (pair_list drivers.length) 0 none h
  exact ⟨l₁, a, l₂, hL, hfold, h3, h1, h2⟩

/-- Claim C8 counterexample: with two drivers the only pair is `(0, 1)`,
and on the similarity matrix `[[1, -1], [-1, 1]]` (the matrix any
2-driver analysis produces, since standardization makes the two profile
vectors opposite) the reporter identifies no pair at all — the claim
says the maximal pair `(drivers 0, drivers 1)` is identified. -/
theorem c8_counterexample :
    pair_list (["VER", "HAM"] : List String).length = [(0, 1)] ∧
    simEntry [[1, -1], [-1, 1]] (0, 1) = -1 ∧
    (most_similar_pair [[1, -1], [-1, 1]] ["VER", "HAM"]).2 = none := by
  have hp : pair_list (["VER", "HAM"] : List String).length = [(0, 1)] := by decide
  refine ⟨hp, by norm_num [simEntry], ?_⟩
  have hneg : ¬ ((0 : ℚ) < simEntry [[1, -1], [-1, 1]] (0, 1)) := by
    norm_num [simEntry]
  unfold most_similar_pair
  rw [hp]
  unfold best_fold
  rw [List.foldl_cons, if_neg hneg, List.foldl_nil]

/-! ### Claim C3: similarity-matrix properties -/

def matEntry (M : List (List ℚ)) (i j : ℕ) : ℚ := (M.getD i []).getD j 0

/-- The cosine-similarity matrix the analysis returns. -/
def sim_of (sq : ℚ → ℚ) (data : List FeatRow) : List (List ℚ) :=
  (analyze_driving_style_similarity sq data).1

/-- The euclidean-distance matrix the analysis returns. -/
def dist_of (sq : ℚ → ℚ) (data : List FeatRow) : List (List ℚ) :=
  (analyze_driving_style_similarity sq data).2.1

lemma dotQ_comm (a : List ℚ) : ∀ b : List ℚ, dotQ a b = dotQ b a := by
  induction a with
  | nil => intro b; cases b <;> rfl
  | cons x xs ih =>
    intro b
    cases b with
    | nil => rfl
    | cons y ys =>
      simp only [dotQ, List.zipWith_cons_cons, List.sum_cons] at *
      rw [show (List.zipWith (fun x y => x * y) xs ys).sum =
          (List.zipWith (fun x y => x * y) ys xs).sum from ih ys, mul_comm]

lemma dotQ_self (u : List ℚ) : dotQ u u = sum_sq u := by
  induction u with
  | nil => rfl
  | cons x xs ih =>
    simp only [dotQ, sum_sq, List.zipWith_cons_cons, List.map_cons, List.sum_cons] at *
    rw [ih]

lemma sum_sq_map_div (l : List ℚ) (c : ℚ) :
    sum_sq (l.map (fun x => x / c)) = sum_sq l / (c * c) := by
  induction l with
  | nil => simp [sum_sq]
  | cons x xs ih =>
    simp only [List.map_cons, sum_sq, List.map_map, List.sum_cons] at *
    rw [add_div, ← ih, div_mul_div_comm]

lemma scaled_profiles_length (sq : ℚ → ℚ) (data : List FeatRow) :
    (scaled_profiles sq data).length = (driver_profiles sq data).length := by
  simp [scaled_profiles, standardized]

lemma analyze_of_two (sq : ℚ → ℚ) (data : List FeatRow)
    (h2 : 2 ≤ (driver_profiles sq data).length) :
    analyze_driving_style_similarity sq data =
      (cosine_similarity_m sq (scaled_profiles sq data),
       euclidean_distances_m sq (scaled_profiles sq data),
       (driver_profiles sq data).map (fun p => p.1), driver_profiles sq data) := by
  unfold analyze_driving_style_similarity scaled_profiles
  rw [if_neg (by omega)]

lemma cosine_length (sq : ℚ → ℚ) (X : List (List ℚ)) :
    (cosine_similarity_m sq X).length = X.length := by
  simp [cosine_similarity_m]

lemma cosine_row_length (sq : ℚ → ℚ) (X : List (List ℚ)) :
    ∀ row ∈ cosine_similarity_m sq X, row.length = X.length := by
  intro row hr
  unfold cosine_similarity_m at hr
  rcases List.mem_map.mp hr with ⟨u, _, rfl⟩
  simp

lemma cosine_entry (sq : ℚ → ℚ) (X : List (List ℚ)) (i j : ℕ)
    (hi : i < X.length) (hj : j < X.length) :
    matEntry (cosine_similarity_m sq X) i j =
      dotQ (normalize_row sq (X.getD i [])) (normalize_row sq (X.getD j [])) := by
  unfold cosine_similarity_m matEntry
  rw [getD_map_of_lt _ (X.map (normalize_row sq)) i (by simpa using hi) [] []]
  rw [getD_map_of_lt _ (X.map (normalize_row sq)) j (by simpa using hj) [] 0]
  rw [getD_map_of_lt _ X i hi [] [], getD_map_of_lt _ X j hj [] []]

lemma euclid_length (sq : ℚ → ℚ) (X : List (List ℚ)) :
    (euclidean_distances_m sq X).length = X.length := by
  simp [euclidean_distances_m]

lemma euclid_row_length (sq : ℚ → ℚ) (X : List (List ℚ)) :
    ∀ row ∈ euclidean_distances_m sq X, row.length = X.length := by
  intro row hr
  unfold euclidean_distances_m at hr
  rcases List.mem_map.mp hr with ⟨i, _, rfl⟩
  simp

lemma euclid_entry (sq : ℚ → ℚ) (X : List (List ℚ)) (i j : ℕ)
    (hi : i < X.length) (hj : j < X.length) :
    matEntry (euclidean_distances_m sq X) i j =
      if i = j then 0 else
        sq (max 0 (sum_sq (X.getD i []) - 2 * dotQ (X.getD i []) (X.getD j [])
          + sum_sq (X.getD j []))) := by
  unfold euclidean_distances_m matEntry
  rw [getD_range_map _ _ i hi []]
  rw [getD_range_map _ _ j hj 0]

/-- Claim C3, amended: for at least two driver profiles both returned
matrices are square of dimension the driver count and symmetric, every
diagonal entry of the distance matrix is 0, and a diagonal entry of the
cosine matrix is 1 for every driver whose standardized profile vector
is nonzero (given a square-root oracle exact on that vector's squared
norm).  As stated the claim fails: a driver whose standardized profile
vector is zero — as happens whenever all drivers have identical
profiles, since every column then has zero variance — gets cosine
diagonal 0, because sklearn's normalize maps a zero norm to 1: see the
counterexample. -/
theorem c3_matrix_properties_amended (sq : ℚ → ℚ) (data : List FeatRow)
    (h2 : 2 ≤ (driver_profiles sq data).length) :
    ((sim_of sq data).length = (driver_profiles sq data).length ∧
     (∀ row ∈ sim_of sq data, row.length = (driver_profiles sq data).length) ∧
     (dist_of sq data).length = (driver_profiles sq data).length ∧
     (∀ row ∈ dist_of sq data, row.length = (driver_profiles sq data).length)) ∧
    (∀ i j, i < (driver_profiles sq data).length → j < (driver_profiles sq data).length →
      matEntry (sim_of sq data) i j = matEntry (sim_of sq data) j i ∧
      matEntry (dist_of sq data) i j = matEntry (dist_of sq data) j i) ∧
    (∀ i, i < (driver_profiles sq data).length → matEntry (dist_of sq data) i i = 0) ∧
    (∀ i, i < (driver_profiles sq data).length →
      sum_sq ((scaled_profiles sq data).getD i []) ≠ 0 →
      sq (sum_sq ((scaled_profiles sq data).getD i [])) *
          sq (sum_sq ((scaled_profiles sq data).getD i [])) =
        sum_sq ((scaled_profiles sq data).getD i []) →
      matEntry (sim_of sq data) i i = 1) := by
  have hS : (scaled_profiles sq data).length = (driver_profiles sq data).length :=
    scaled_profiles_length sq data
  have hsim : sim_of sq data = cosine_similarity_m sq (scaled_profiles sq data) := by
    unfold sim_of
    rw [analyze_of_two sq data h2]
  have hdist : dist_of sq data = euclidean_distances_m sq (scaled_profiles sq data) := by
    unfold dist_of
    rw [analyze_of_two sq data h2]
  refine ⟨⟨?_, ?_, ?_, ?_⟩, ?_, ?_, ?_⟩
  · rw [hsim, cosine_length, hS]
  · intro row hr
    rw [← hS]
    exact cosine_row_length sq _ row (by rwa [hsim] at hr)
  · rw [hdist, euclid_length, hS]
  · intro row hr
    rw [← hS]
    exact euclid_row_length sq _ row (by rwa [hdist] at hr)
  · intro i j hi hj
    rw [← hS] at hi hj
    constructor
    · rw [hsim, cosine_entry sq _ i j hi hj, cosine_entry sq _ j i hj hi, dotQ_comm]
    · rw [hdist, euclid_entry sq _ i j hi hj, euclid_entry sq _ j i hj hi]
      by_cases hij : i = j
      · simp [hij]
      · rw [if_neg hij, if_neg (fun h => hij h.symm), dotQ_comm]
        ring_nf
  · intro i hi
    rw [← hS] at hi
    rw [hdist, euclid_entry sq _ i i hi hi]
    simp
  · intro i hi hnz hsq
    rw [← hS] at hi
    rw [hsim, cosine_entry sq _ i i hi hi, dotQ_self]
    unfold normalize_row
    have hsqz : sq (sum_sq ((scaled_profiles sq data).getD i [])) ≠ 0 := by
      intro h0
      rw [h0, mul_zero] at hsq
      exact hnz hsq.symm
    simp only [if_neg hsqz]
    rw [sum_sq_map_div, hsq]
    exact div_self hnz

/-! ### Evaluating the concrete square-root oracle -/

lemma ratSqrt_natCast (n : ℕ) : ratSqrt (n : ℚ) = (intSqrt n : ℚ) := by
  unfold ratSqrt
  rw [Rat.num_natCast, Rat.den_natCast]
  simp [show intSqrt 1 = 1 from by decide]

lemma ratSqrt_zero : ratSqrt 0 = 0 := by
  rw [show (0 : ℚ) = ((0 : ℕ) : ℚ) by norm_num, ratSqrt_natCast,
    show intSqrt 0 = 0 from by decide]

lemma ratSqrt_one : ratSqrt 1 = 1 := by
  rw [show (1 : ℚ) = ((1 : ℕ) : ℚ) by norm_num, ratSqrt_natCast,
    show intSqrt 1 = 1 from by decide]

lemma ratSqrt_four : ratSqrt 4 = 2 := by
  rw [show (4 : ℚ) = ((4 : ℕ) : ℚ) by norm_num, ratSqrt_natCast,
    show intSqrt 4 = 2 from by decide]
  norm_num

lemma ratSqrt_nine : ratSqrt 9 = 3 := by
  rw [show (9 : ℚ) = ((9 : ℕ) : ℚ) by norm_num, ratSqrt_natCast,
    show intSqrt 9 = 3 from by decide]
  norm_num

lemma ratSqrt_twentyfive : ratSqrt 25 = 5 := by
  rw [show (25 : ℚ) = ((25 : ℕ) : ℚ) by norm_num, ratSqrt_natCast,
    show intSqrt 25 = 5 from by decide]
  norm_num

lemma ratSqrt_twotwentyfive : ratSqrt 225 = 15 := by
  rw [show (225 : ℚ) = ((225 : ℕ) : ℚ) by norm_num, ratSqrt_natCast,
    show intSqrt 225 = 15 from by decide]
  norm_num

/-! ### Concrete data for the C3 counterexample: two identical drivers -/

def rowV : FeatRow := ⟨0, 0, 0, 0, 0, 0, 0, 0, 0, 0, "VER", "RedBull"⟩

def rowH : FeatRow := ⟨0, 0, 0, 0, 0, 0, 0, 0, 0, 0, "HAM", "Ferrari"⟩

def data_ident : List FeatRow := [rowV, rowH]

/-- The profile both identical drivers get: all aggregates of the
all-zero single row are 0 (the singleton standard deviations are NaN,
coerced to 0) except throttle_smoothness, which is 1/(0 + 0.001). -/
def p_ident : ProfileOpt :=
  ⟨some 0, some 0, some 0, some 0, some 1000, some 0, some 0, some 0,
   some 0, some 0, some 0, some 0⟩

lemma unique_first_ident :
    unique_first (data_ident.map (fun r => r.driver)) = ["VER", "HAM"] := by
  simp [data_ident, rowV, rowH, unique_first]

lemma filter_ident_V : data_ident.filter (fun r => r.driver == "VER") = [rowV] := by
  simp [data_ident, rowV, rowH]

lemma filter_ident_H : data_ident.filter (fun r => r.driver == "HAM") = [rowH] := by
  simp [data_ident, rowV, rowH]

lemma profile_rowV : mk_profile ratSqrt [rowV] = p_ident := by
  norm_num [mk_profile, raw_profile, coerce_profile, meanO, meanQ, maxO, stdO,
    quantileQ, sortQ, insQ, svar, rowV, p_ident, List.filter]

lemma profile_rowH : mk_profile ratSqrt [rowH] = p_ident := by
  norm_num [mk_profile, raw_profile, coerce_profile, meanO, meanQ, maxO, stdO,
    quantileQ, sortQ, insQ, svar, rowH, p_ident, List.filter]

lemma profiles_ident : driver_profiles ratSqrt data_ident =
    [("VER", p_ident), ("HAM", p_ident)] := by
  unfold driver_profiles
  rw [unique_first_ident]
  simp only [List.filterMap_cons, List.filterMap_nil, filter_ident_V, filter_ident_H,
    profile_rowV, profile_rowH, List.length_cons, List.length_nil]
  norm_num

lemma scaled_ident : scaled_profiles ratSqrt data_ident =
    [[0, 0, 0, 0, 0, 0, 0, 0, 0, 0, 0, 0], [0, 0, 0, 0, 0, 0, 0, 0, 0, 0, 0, 0]] := by
  unfold scaled_profiles
  rw [profiles_ident]
  norm_num [standardized, profile_vec, p_ident, num_features,
    show List.range 12 = [0, 1, 2, 3, 4, 5, 6, 7, 8, 9, 10, 11] from by decide,
    colAt, col_scale, pvar, meanQ, ratSqrt_zero]

/-- Claim C3 counterexample: two drivers with identical telemetry rows
(hence identical profiles) are at least two profiles, yet the first
diagonal entry of the returned cosine-similarity matrix is 0, not 1:
all standardized columns are zero, and sklearn's normalize maps the
zero vector to itself. -/
theorem c3_counterexample :
    2 ≤ (driver_profiles ratSqrt data_ident).length ∧
    matEntry (sim_of ratSqrt data_ident) 0 0 = 0 := by
  have h2 : 2 ≤ (driver_profiles ratSqrt data_ident).length := by
    rw [profiles_ident]
    norm_num
  refine ⟨h2, ?_⟩
  have hsim : sim_of ratSqrt data_ident =
      cosine_similarity_m ratSqrt (scaled_profiles ratSqrt data_ident) := by
    unfold sim_of
    rw [analyze_of_two ratSqrt data_ident h2]
  rw [hsim, cosine_entry ratSqrt _ 0 0 (by rw [scaled_ident]; norm_num)
    (by rw [scaled_ident]; norm_num), scaled_ident]
  norm_num [normalize_row, sum_sq, dotQ, ratSqrt_zero]

/-! ### Concrete inputs for the witnesses -/

/-- A labelling function with the sklearn contract (one label per row):
every sample is labelled noise. -/
def lbl0 : List (List ℚ) → List ℤ := fun fs => fs.map (fun _ => -1)

/-- A parsed table missing the required Speed column. -/
def table_no_speed : RawTable := ⟨true, false, true, true, false, false, []⟩

/-- A well-formed table with no brake column of either kind. -/
def table_no_brake : RawTable :=
  ⟨true, true, true, true, false, false, [⟨6, 5, 1, 20, false, 0⟩]⟩

/-- A well-formed table whose third sample has gear -1, so its
GearEfficiency divides by zero and the record is dropped. -/
def table_good : RawTable :=
  ⟨true, true, true, true, true, false,
   [⟨6, 5, 1, 20, false, 0⟩, ⟨12, 7, 1, 26, true, 0⟩, ⟨9, 3, -1, 10, false, 0⟩]⟩

/-- Three rows of one driver with constant Speed: no row lies strictly
below the 30th Speed percentile, so cornering_style must fall back to
the overall mean Throttle (here 20). -/
def data_const : List FeatRow :=
  [⟨0, 50, 0, 10, 0, 0, 0, 0, 0, 0, "NOR", "McLaren"⟩,
   ⟨0, 50, 0, 20, 0, 0, 0, 0, 0, 0, "NOR", "McLaren"⟩,
   ⟨0, 50, 0, 30, 0, 0, 0, 0, 0, 0, "NOR", "McLaren"⟩]

/-- Four rows, three of one driver and one of another. -/
def data_ab : List FeatRow :=
  [⟨0, 1, 0, 0, 0, 0, 0, 0, 0, 0, "ALB", "Williams"⟩,
   ⟨0, 2, 0, 0, 0, 0, 0, 0, 0, 0, "ALB", "Williams"⟩,
   ⟨0, 3, 0, 0, 0, 0, 0, 0, 0, 0, "ALB", "Williams"⟩,
   ⟨0, 4, 0, 0, 0, 0, 0, 0, 0, 0, "SAI", "Williams"⟩]

/-- 100 rows: exactly at the orchestrator threshold, hence insufficient. -/
def data_100 : List FeatRow := List.replicate 100 rowV

/-- A 2-by-2 similarity matrix with a strictly positive off-diagonal
entry. -/
def sim_pos : List (List ℚ) := [[1, 1/2], [1/2, 1]]

/-! ### Witnesses -/

/-- Witness for C1: the mixed-validity table keeps as many rows as it
has valid derived records, and the profile of an identical-rows driver
has every field defined. -/
theorem c1_witness :
    ((process_driver_telemetry ratSqrt table_good "VER").getD []).length =
      (raw_feature_table ratSqrt table_good).countP
        (fun p => p.gearEfficiency.isFin) ∧
    profile_defined p_ident = true := by
  constructor
  · obtain ⟨hlen, _⟩ :=
      (c1_no_invalid_values_leak ratSqrt).1 table_good "VER" _ rfl
    simpa using hlen
  · have hmem : ("VER", p_ident) ∈ driver_profiles ratSqrt data_ident := by
      rw [profiles_ident]
      exact List.mem_cons_self _ _
    exact (c1_no_invalid_values_leak ratSqrt).2 data_ident ("VER", p_ident) hmem

/-- Witness for C2: driver ALB has 3 rows; with the default cap 800 all
3 are retained, with cap 2 only 2 are. -/
theorem c2_witness :
    (cluster_track_data lbl0 data_ab 800).countP (fun c => c.row.driver == "ALB") =
      min ((data_ab.filter (fun r => r.driver == "ALB")).length) 800 ∧
    (data_ab.filter (fun r => r.driver == "ALB")).length = 3 ∧
    (cluster_track_data lbl0 data_ab 2).countP (fun c => c.row.driver == "ALB") =
      min ((data_ab.filter (fun r => r.driver == "ALB")).length) 2 := by
  have h800 := c2_balancing_invariant lbl0 (by intro fs; simp [lbl0]) data_ab 800 "ALB"
    (by simp [data_ab])
  have hc2 := c2_balancing_invariant lbl0 (by intro fs; simp [lbl0]) data_ab 2 "ALB"
    (by simp [data_ab])
  exact ⟨h800.2.1, by simp [data_ab], hc2.2.1⟩

/-- Witness for C4: exactly one driver profile gives empty matrices and
the singleton driver list. -/
theorem c4_witness :
    analyze_driving_style_similarity ratSqrt [rowV] =
      ([], [], (driver_profiles ratSqrt [rowV]).map (fun p => p.1),
        driver_profiles ratSqrt [rowV]) ∧
    (driver_profiles ratSqrt [rowV]).length = 1 := by
  have hlen : (driver_profiles ratSqrt [rowV]).length = 1 := by
    simp [driver_profiles, unique_first, rowV]
  exact ⟨c4_insufficient_data_guard ratSqrt [rowV] (by omega), hlen⟩

/-- Witness for C5: constant Speed forces the fallback, and the
cornering style is the overall mean Throttle 20. -/
theorem c5_witness :
    (mk_profile ratSqrt data_const).cornering_style = some 20 ∧
    meanQ (data_const.map (fun r => r.throttle)) = 20 := by
  have h := c5_cornering_fallback ratSqrt data_const (by simp [data_const])
  have hfil : data_const.filter (fun r => r.speed <
      quantileQ (data_const.map (fun r => r.speed)) (3/10)) = [] := by
    norm_num [data_const, quantileQ, sortQ, insQ]
  have hmean : meanQ (data_const.map (fun r => r.throttle)) = 20 := by
    norm_num [data_const, meanQ]
  exact ⟨h.1.trans (by rw [h.2.2 hfil, hmean]), hmean⟩

/-- Witness for C6: on the mixed-validity table the formulas reproduce
the output, and exactly the two valid records survive. -/
theorem c6_witness :
    process_driver_telemetry ratSqrt table_good "VER" =
      some ((raw_feature_table ratSqrt table_good).filterMap
        (keepValidRow "VER" (get_driver_team "VER"))) ∧
    (raw_feature_table ratSqrt table_good).filterMap
        (keepValidRow "VER" (get_driver_team "VER")) =
      (List.range table_good.rows.length).filterMap (fun i =>
        if (rawAt table_good i).gear + 1 = 0 then none
        else some (spec_row ratSqrt table_good "VER" i)) ∧
    ((List.range table_good.rows.length).filterMap (fun i =>
        if (rawAt table_good i).gear + 1 = 0 then none
        else some (spec_row ratSqrt table_good "VER" i))).length = 2 := by
  refine ⟨rfl, c6_derived_feature_formulas ratSqrt table_good "VER" _ rfl, ?_⟩
  norm_num [table_good, rawAt, show List.range 3 = [0, 1, 2] from by decide,
    List.filterMap_cons]

/-- Witness for C7: a missing Speed column yields None, a missing brake
column alone does not, and the loader skips the failing driver. -/
theorem c7_witness :
    process_driver_telemetry ratSqrt table_no_speed "ALB" = none ∧
    (∃ out, process_driver_telemetry ratSqrt table_no_brake "ALB" = some out ∧
      ∀ r ∈ out, r.nbrake = 0) ∧
    load_track_data ratSqrt [("ALB", table_no_speed)] = load_track_data ratSqrt [] := by
  have h := c7_missing_columns ratSqrt table_no_speed "ALB"
  have hb := c7_missing_columns ratSqrt table_no_brake "ALB"
  have hnone : process_driver_telemetry ratSqrt table_no_speed "ALB" = none :=
    h.1.mpr (by simp [table_no_speed])
  exact ⟨hnone, hb.2.1 rfl rfl rfl rfl rfl rfl, h.2.2 [] hnone⟩

/-- Witness for C8 (amended): on a matrix whose only pair has strictly
positive similarity, that pair of drivers is reported. -/
theorem c8_witness :
    (most_similar_pair sim_pos ["VER", "HAM"]).2 = some ("VER", "HAM") := by
  obtain ⟨l₁, ij, l₂, hL, hfold, hpos, h1, h2⟩ :=
    c8_most_similar_pair_amended sim_pos ["VER", "HAM"]
      ⟨(0, 1), by decide, by norm_num [simEntry, sim_pos]⟩
  have hp : pair_list (["VER", "HAM"] : List String).length = [(0, 1)] := by decide
  rw [hp] at hL
  have hij : ij = (0, 1) := by
    have hm : ij ∈ l₁ ++ ij :: l₂ := List.mem_append_right _ (List.mem_cons_self _ _)
    rw [← hL] at hm
    simpa using hm
  subst hij
  rw [hfold]
  rfl

/-- Witness for C9: a clustered row of the two-driver table carries an
unchanged input Feature Row. -/
theorem c9_witness : (ClustRow.mk rowV (-1)).row ∈ data_ident := by
  have hcl : cluster_track_data lbl0 data_ident 800 =
      [ClustRow.mk rowV (-1), ClustRow.mk rowH (-1)] := by
    simp [cluster_track_data, balanced_sample, balanced_group, sample_rows,
      unique_first_ident, filter_ident_V, filter_ident_H, lbl0]
  exact c9_frame_property lbl0 data_ident 800 (ClustRow.mk rowV (-1))
    (by rw [hcl]; exact List.mem_cons_self _ _)

/-- Witness for C10: a load of exactly 100 rows and a failed load both
yield the no-result value. -/
theorem c10_witness :
    analyze_single_track ratSqrt lbl0 (some data_100) = none ∧
    analyze_single_track ratSqrt lbl0 none = none := by
  have h := c10_sufficiency_threshold ratSqrt lbl0 (some data_100)
  have h2 := c10_sufficiency_threshold ratSqrt lbl0 none
  exact ⟨h.2.2.1 data_100 rfl (by simp [data_100]), h2.2.2.2 rfl⟩

/-! ### The C3 witness: two single-row drivers whose profiles differ in
exactly nine of the twelve columns, making every standardized entry 0 or
±1 and every squared norm the perfect square 9, where `ratSqrt` is exact. -/

def rowA9 : FeatRow := ⟨12, 10, 2, 50, 1, 0, 3, 4, 0, 1, "VER", "RedBull"⟩

def rowB9 : FeatRow := ⟨12, 20, 2, 80, 3, 0, 7, 6, 0, 3, "HAM", "Ferrari"⟩

def data_nine : List FeatRow := [rowA9, rowB9]

def pA9 : ProfileOpt :=
  ⟨some 10, some 0, some 10, some 50, some 1000, some 1, some 3, some 4,
   some 1, some 0, some 50, some 50⟩

def pB9 : ProfileOpt :=
  ⟨some 20, some 0, some 20, some 80, some 1000, some 3, some 7, some 6,
   some 3, some 0, some 80, some 80⟩

lemma unique_first_nine :
    unique_first (data_nine.map (fun r => r.driver)) = ["VER", "HAM"] := by
  simp [data_nine, rowA9, rowB9, unique_first]

lemma filter_nine_V : data_nine.filter (fun r => r.driver == "VER") = [rowA9] := by
  simp [data_nine, rowA9, rowB9]

lemma filter_nine_H : data_nine.filter (fun r => r.driver == "HAM") = [rowB9] := by
  simp [data_nine, rowA9, rowB9]

lemma profile_rowA9 : mk_profile ratSqrt [rowA9] = pA9 := by
  norm_num [mk_profile, raw_profile, coerce_profile, meanO, meanQ, maxO, stdO,
    quantileQ, sortQ, insQ, svar, rowA9, pA9, List.filter]

lemma profile_rowB9 : mk_profile ratSqrt [rowB9] = pB9 := by
  norm_num [mk_profile, raw_profile, coerce_profile, meanO, meanQ, maxO, stdO,
    quantileQ, sortQ, insQ, svar, rowB9, pB9, List.filter]

lemma profiles_nine : driver_profiles ratSqrt data_nine =
    [("VER", pA9), ("HAM", pB9)] := by
  unfold driver_profiles
  rw [unique_first_nine]
  simp only [List.filterMap_cons, List.filterMap_nil, filter_nine_V, filter_nine_H,
    profile_rowA9, profile_rowB9, List.length_cons, List.length_nil]
  norm_num

lemma scaled_nine : scaled_profiles ratSqrt data_nine =
    [[-1, 0, -1, -1, 0, -1, -1, -1, -1, 0, -1, -1],
     [1, 0, 1, 1, 0, 1, 1, 1, 1, 0, 1, 1]] := by
  unfold scaled_profiles
  rw [profiles_nine]
  norm_num [standardized, profile_vec, pA9, pB9, num_features,
    show List.range 12 = [0, 1, 2, 3, 4, 5, 6, 7, 8, 9, 10, 11] from by decide,
    colAt, col_scale, pvar, meanQ, ratSqrt_zero, ratSqrt_one, ratSqrt_four,
    ratSqrt_twentyfive, ratSqrt_twotwentyfive]

/-- Witness for C3 (amended): on the nine-differing-columns pair the
matrices are 2 by 2, the first cosine diagonal entry is exactly 1, the
first distance diagonal entry is 0, and the off-diagonal entries are
symmetric. -/
theorem c3_witness :
    (sim_of ratSqrt data_nine).length = 2 ∧
    matEntry (sim_of ratSqrt data_nine) 0 0 = 1 ∧
    matEntry (dist_of ratSqrt data_nine) 0 0 = 0 ∧
    matEntry (sim_of ratSqrt data_nine) 0 1 = matEntry (sim_of ratSqrt data_nine) 1 0 := by
  have hn : (driver_profiles ratSqrt data_nine).length = 2 := by
    rw [profiles_nine]
    rfl
  have h2 : 2 ≤ (driver_profiles ratSqrt data_nine).length := by omega
  have hmain := c3_matrix_properties_amended ratSqrt data_nine h2
  refine ⟨by rw [hmain.1.1, hn], ?_, ?_, ?_⟩
  · apply hmain.2.2.2 0 (by omega)
    · rw [scaled_nine]
      norm_num [sum_sq]
    · rw [scaled_nine]
      norm_num [sum_sq, ratSqrt_nine]
  · exact hmain.2.2.1 0 (by omega)
  · exact (hmain.2.1 0 1 (by omega) (by omega)).1

end F1
